import Mathlib

/-!
Verification of the genidi step-sequencer core: the polyphonic synthesizer
voice pool (internal/audio/synth.go), the step clock (internal/tui +
model.Update tick handling) and the MIDI file codec (saveMIDI / loadMIDI in
internal/tui/sequencer.go).

The SMF container library (gitlab.com/gomidi/midi/v2/smf) is modelled
abstractly and losslessly at the level the program uses it: a file is a list
of tracks, a track a list of (delta-ticks, message) pairs; `Track.Add`
appends a pair, `ReadFile`/`WriteFile` are the identity on that structure,
and a meta tempo message carries the BPM number given to `smf.MetaTempo`.
float64 quantities of the Go code (frequency, phase, envelope, volume) are
modelled by their exact rational counterparts.
-/

set_option autoImplicit false

namespace Genidi

/-- Exact value of an oscillator frequency: `⟨b, k⟩` denotes the real number
`b * 2 ^ (k / 12)`.  The Go helper `midiNoteToFreq` computes
`440.0 * math.Pow(2.0, (float64(note)-69.0)/12.0)` in float64; we keep the
exact parameters of that expression — the base factor and the numerator
`note - 69` of the exponent over the fixed denominator 12 — instead of the
rounded float.  Since `x ↦ b * 2 ^ (x / 12)` is injective for `b ≠ 0`, two
frequencies with the same base are equal exactly when these records are. -/
structure FreqExpr where
  base : ℕ
  noteMinus69 : ℤ
deriving DecidableEq

/-- `midiNoteToFreq` (internal/audio/synth.go): the frequency
`440 * 2 ^ ((note - 69) / 12)` of a MIDI note, A4 (note 69) = 440 Hz. -/
def midiNoteToFreq (note : ℕ) : FreqExpr :=
  ⟨440, (note : ℤ) - 69⟩

/-- `Voice` (internal/audio/synth.go): a single playing note.  The Go uint8
fields are modelled as ℕ, the float64 fields as ℚ. -/
structure Voice where
  note : ℕ
  channel : ℕ
  velocity : ℕ
  frequency : FreqExpr
  phase : ℚ
  envelope : ℚ
  releasing : Bool
  active : Bool
deriving DecidableEq

/-- `Synth` (internal/audio/synth.go), restricted to the state read or
written by NoteOn/NoteOff/AllNotesOff/SetVolume: the voice slice, the
capacity `maxVoices` and the master volume.  (The oto player handles and the
per-channel wave-type table are not touched by these operations.) -/
structure Synth where
  voices : List Voice
  maxVoices : ℕ
  masterVolume : ℚ
deriving DecidableEq

/-- `NewSynth`: 64-voice capacity, master volume 0.3. -/
def newSynth : Synth :=
  { voices := [], maxVoices := 64, masterVolume := 3 / 10 }

/-- The matching condition of the `noteOffLocked` scan:
`v.active && v.note == note && v.channel == channel && !v.releasing`. -/
def noteMatches (channel note : ℕ) (v : Voice) : Bool :=
  v.active && v.note == note && v.channel == channel && !v.releasing

/-- The scan loop of `noteOffLocked`: flip the first active, matching,
non-releasing voice to releasing, leaving everything else untouched (the Go
loop breaks after the first hit). -/
def releaseFirst (channel note : ℕ) : List Voice → List Voice
  | [] => []
  | v :: vs =>
    if noteMatches channel note v then
      { v with releasing := true } :: vs
    else
      v :: releaseFirst channel note vs

/-- `noteOffLocked` (internal/audio/synth.go). -/
def Synth.noteOffLocked (s : Synth) (channel note : ℕ) : Synth :=
  { s with voices := releaseFirst channel note s.voices }

/-- `Synth.NoteOff`: takes the lock and runs `noteOffLocked`. -/
def Synth.noteOff (s : Synth) (channel note : ℕ) : Synth :=
  s.noteOffLocked channel note

/-- The field assignments `NoteOn` performs on the chosen voice slot:
frequency from the note formula, phase 0, envelope 0, not releasing,
active. -/
def resetVoice (channel note velocity : ℕ) : Voice :=
  { note := note, channel := channel, velocity := velocity,
    frequency := midiNoteToFreq note, phase := 0, envelope := 0,
    releasing := false, active := true }

/-- The first loop of `NoteOn`: if some slot holds an inactive voice,
replace the first such slot with `w` and report success. -/
def setFirstInactive (w : Voice) : List Voice → Option (List Voice)
  | [] => none
  | v :: vs =>
    if !v.active then some (w :: vs)
    else (setFirstInactive w vs).map (v :: ·)

/-- `Synth.NoteOn` (internal/audio/synth.go): velocity 0 delegates to
`noteOffLocked`; otherwise reuse the first inactive slot, else grow the pool
while below `maxVoices`, else steal slot 0, and (re)initialize the chosen
slot. -/
def Synth.noteOn (s : Synth) (channel note velocity : ℕ) : Synth :=
  if velocity = 0 then s.noteOffLocked channel note
  else
    match setFirstInactive (resetVoice channel note velocity) s.voices with
    | some vs => { s with voices := vs }
    | none =>
      if s.voices.length < s.maxVoices then
        { s with voices := s.voices ++ [resetVoice channel note velocity] }
      else
        { s with voices := s.voices.set 0 (resetVoice channel note velocity) }

/-! ## The sequencer data model and the SMF container -/

/-- The messages the sequencer reads or writes through the gomidi smf
library: the 4/4 meter meta event, the tempo meta event (carrying the BPM
value handed to `smf.MetaTempo`), note on/off, and the end-of-track marker
appended by `Track.Close`. -/
inductive Msg where
  | meter (num denom : ℕ)
  | tempo (bpm : ℕ)
  | noteOn (channel note velocity : ℕ)
  | noteOff (channel note : ℕ)
  | endOfTrack
deriving DecidableEq

/-- An SMF track: the ordered `(delta-ticks, message)` pairs built by
`Track.Add` and `Track.Close`. -/
abbrev Track := List (ℕ × Msg)

/-- An SMF file: the ordered tracks added by `smf.New()` plus `sm.Add`. -/
abbrev SMFFile := List Track

def numSteps : ℕ := 16

def numChannels : ℕ := 4

def ticksPerQuarterNote : ℕ := 960

/-- `ticksPerQuarterNote / 4` — 240 ticks per 16th-note step, as computed in
both `saveMIDI` and `loadMIDI`. -/
def ticksPerStep : ℕ := ticksPerQuarterNote / 4

/-- `sequencerModel` (internal/tui/sequencer.go), restricted to the
sequencing state: tempo, the 4×16 active grid and note grid (total
functions standing for the fixed-size Go arrays; only indices below
`numChannels`/`numSteps` are ever read), cursor and playback position.
File path, status message and the MIDI port fields are plumbing. -/
structure SeqModel where
  bpm : ℕ
  steps : ℕ → ℕ → Bool
  notes : ℕ → ℕ → ℕ
  cursorX : ℕ
  cursorY : ℕ
  isPlaying : Bool
  currentStep : ℕ

/-- `defaultNotes := [4]int{60, 62, 64, 65}` — C4, D4, E4, F4 per channel
(indices past 3 are never read). -/
def defaultNotes : ℕ → ℕ
  | 0 => 60
  | 1 => 62
  | 2 => 64
  | 3 => 65
  | _ => 0

/-- The common re-initialization prefix of `createNewMIDI` and `loadMIDI`:
bpm 120, cursor and play-head reset, playback stopped, all steps off, every
channel's notes at its default. -/
def resetModel (m : SeqModel) : SeqModel :=
  { m with bpm := 120, cursorX := 0, cursorY := 0, isPlaying := false,
           currentStep := 0, steps := fun _ _ => false,
           notes := fun ch _ => defaultNotes ch }

/-! ## Encoding (`saveMIDI`) -/

/-- The per-channel step loop of `saveMIDI`: for each remaining step, if
active, add a NoteOn at delta `pos - lastTick` (velocity 100) and a NoteOff
at delta `ticksPerStep - 1`, updating `lastTick` to `pos + ticksPerStep - 1`.
Returns the events added and the final `lastTick`.  The `uint8` casts of the
channel and note are `% 256` (the channel is below 4 already). -/
def stepEvents (ch : ℕ) (steps : ℕ → ℕ → Bool) (notes : ℕ → ℕ → ℕ) :
    List ℕ → ℕ → Track × ℕ
  | [], lastTick => ([], lastTick)
  | st :: rest, lastTick =>
    if steps ch st then
      ((st * ticksPerStep - lastTick, Msg.noteOn ch (notes ch st % 256) 100)
          :: (ticksPerStep - 1, Msg.noteOff ch (notes ch st % 256))
          :: (stepEvents ch steps notes rest
                (st * ticksPerStep + (ticksPerStep - 1))).1,
        (stepEvents ch steps notes rest
                (st * ticksPerStep + (ticksPerStep - 1))).2)
    else stepEvents ch steps notes rest lastTick

/-- The note events of one channel track (steps 0..15, starting from
`lastTick = 0`). -/
def channelBody (ch : ℕ) (steps : ℕ → ℕ → Bool) (notes : ℕ → ℕ → ℕ) : Track :=
  (stepEvents ch steps notes (List.range numSteps) 0).1

/-- The final `lastTick` after one channel's step loop. -/
def channelLastTick (ch : ℕ) (steps : ℕ → ℕ → Bool) (notes : ℕ → ℕ → ℕ) : ℕ :=
  (stepEvents ch steps notes (List.range numSteps) 0).2

/-- The closing delta of a channel track: `endTick - lastTick` when
`lastTick < endTick`, else `0` (`saveMIDI`'s guard against a negative
delta), with `endTick = numSteps * ticksPerStep`. -/
def closeDelta (lastTick : ℕ) : ℕ :=
  if lastTick < numSteps * ticksPerStep then numSteps * ticksPerStep - lastTick
  else 0

/-- One channel track of `saveMIDI`: the note events followed by
`track.Close` at the closing delta. -/
def channelTrack (ch : ℕ) (steps : ℕ → ℕ → Bool) (notes : ℕ → ℕ → ℕ) : Track :=
  channelBody ch steps notes
    ++ [(closeDelta (channelLastTick ch steps notes), Msg.endOfTrack)]

/-- Track 0 of `saveMIDI`: 4/4 meter and the tempo event at tick 0, then
`Close(0)`. -/
def tempoTrack (bpm : ℕ) : Track :=
  [(0, Msg.meter 4 4), (0, Msg.tempo bpm), (0, Msg.endOfTrack)]

/-- `saveMIDI` (internal/tui/sequencer.go): the tempo track followed by one
track per channel.  (The surrounding file-path check and disk write are
plumbing; this is the file content handed to `WriteFile`.) -/
def saveMIDI (m : SeqModel) : SMFFile :=
  tempoTrack m.bpm
    :: (List.range numChannels).map (fun ch => channelTrack ch m.steps m.notes)

/-! ## Decoding (`loadMIDI`) -/

/-- First tempo message of a track, if any. -/
def tempoInTrack : Track → Option ℕ
  | [] => none
  | (_, Msg.tempo b) :: _ => some b
  | _ :: rest => tempoInTrack rest

/-- `rd.TempoChanges()[0]`, abstractly: the first tempo event of the file in
track order (the files this program writes have at most one, at tick 0 of
track 0). -/
def firstTempo : SMFFile → Option ℕ
  | [] => none
  | tr :: rest =>
    match tempoInTrack tr with
    | some b => some b
    | none => firstTempo rest

/-- `loadMIDI`'s cell update on a NoteOn hit:
`s.notes[ch][step] = int(key); s.steps[ch][step] = true`. -/
def setCell (m : SeqModel) (ch st note : ℕ) : SeqModel :=
  { m with
    notes := fun c s => if c = ch ∧ s = st then note else m.notes c s,
    steps := fun c s => if c = ch ∧ s = st then true else m.steps c s }

/-- The message loop of `loadMIDI` for one track: accumulate delta ticks;
on a NoteOn message (whose own channel byte is read into a variable but
never used), compute `step = currentTick / ticksPerStep` and, when
`step < numSteps` and the velocity is positive, record the note in channel
`ch`'s row of the grid. -/
def parseEvents (ch : ℕ) : Track → ℕ → SeqModel → SeqModel
  | [], _, m => m
  | (delta, msg) :: rest, currentTick, m =>
    match msg with
    | Msg.noteOn _ key vel =>
      if (currentTick + delta) / ticksPerStep < numSteps ∧ 0 < vel then
        parseEvents ch rest (currentTick + delta)
          (setCell m ch ((currentTick + delta) / ticksPerStep) key)
      else parseEvents ch rest (currentTick + delta) m
    | _ => parseEvents ch rest (currentTick + delta) m

/-- The track loop of `loadMIDI`: process tracks 1..min(len-1, 4) (given
here already stripped of track 0), track index `trackIdx` populating
channel `trackIdx - 1`. -/
def parseChannelTracks : List Track → ℕ → SeqModel → SeqModel
  | [], _, m => m
  | tr :: rest, trackIdx, m =>
    if trackIdx ≤ numChannels then
      parseChannelTracks rest (trackIdx + 1) (parseEvents (trackIdx - 1) tr 0 m)
    else m

/-- The parse phase of `loadMIDI` on a successfully read file: reset the
model, take the bpm from the first tempo event if any, then populate the
grid from the channel tracks. -/
def loadParsed (f : SMFFile) (m : SeqModel) : SeqModel :=
  let m1 := resetModel m
  let m2 :=
    match firstTempo f with
    | some b => { m1 with bpm := b }
    | none => m1
  parseChannelTracks (f.drop 1) 1 m2

/-- `loadMIDI` (internal/tui/sequencer.go).  `none` stands for a file
`smf.ReadFile` cannot read (nonexistent or unparseable): the model is reset
to the defaults and `saveMIDI` is invoked to persist them — the written file
is returned in the second component.  On a readable file the parse result is
returned and nothing is written. -/
def loadMIDI (m : SeqModel) (f : Option SMFFile) : SeqModel × Option SMFFile :=
  match f with
  | none =>
    let m1 := resetModel m
    (m1, some (saveMIDI m1))
  | some file => (loadParsed file m, none)

/-! ## The step clock -/

/-- A MIDI message sent to the selected output port. -/
inductive MidiEvent where
  | noteOn (channel note velocity : ℕ)
  | noteOff (channel note : ℕ)
deriving DecidableEq

/-- A bubbletea command as far as the clock is concerned: either no command
or `tea.Tick` scheduling the next `tickMsg` after the given number of
milliseconds. -/
inductive Cmd where
  | noCmd
  | schedule (intervalMs : ℕ)
deriving DecidableEq

/-- `tick()` (internal/tui model): reschedule after a fixed 60 ms
("Tick faster for smoother visual feedback"). -/
def tick : Cmd := Cmd.schedule 60

/-- `tickWithBPM(bpm)` (internal/tui/sequencer.go): reschedule after
`60000 / bpm / 4` milliseconds (Go integer division) — one 16th-note step at
the given tempo. -/
def tickWithBPM (bpm : ℕ) : Cmd := Cmd.schedule (60000 / bpm / 4)

/-- The `tickMsg` case of `model.Update`: when playing, send NoteOff for
every channel active at the previous step, advance the play-head mod 16,
send NoteOn (velocity 100) for every channel active at the new step, and
reschedule via `tick()`.  When stopped, do nothing.  Returns the new model,
the MIDI messages sent (in order) and the returned command. -/
def processTick (m : SeqModel) : SeqModel × List MidiEvent × Cmd :=
  if m.isPlaying then
    let prevStep := m.currentStep
    let offs := (List.range numChannels).filterMap fun ch =>
      if m.steps ch prevStep then
        some (MidiEvent.noteOff ch (m.notes ch prevStep % 256))
      else none
    let newStep := (prevStep + 1) % numSteps
    let ons := (List.range numChannels).filterMap fun ch =>
      if m.steps ch newStep then
        some (MidiEvent.noteOn ch (m.notes ch newStep % 256) 100)
      else none
    ({ m with currentStep := newStep }, offs ++ ons, tick)
  else (m, [], Cmd.noCmd)

/-! ## The sequencer key commands (`updateSequencer`) -/

/-- The sequencer-mode commands of `updateSequencer` plus the file
operations `createNewMIDI` and `loadMIDI`. -/
inductive SeqOp where
  | moveLeft
  | moveRight
  | moveUp
  | moveDown
  | toggle
  | tempoUp
  | tempoDown
  | noteUp
  | noteDown
  | playToggle
  | clearChannel
  | create
  | load (file : Option SMFFile)

/-- State transition of each command, exactly as guarded in
`updateSequencer` (the `saveMIDI` calls after grid edits write the file but
do not change this state; the command returned by `p` is not needed here). -/
def applyOp (m : SeqModel) : SeqOp → SeqModel
  | SeqOp.moveLeft => if 0 < m.cursorX then { m with cursorX := m.cursorX - 1 } else m
  | SeqOp.moveRight =>
    if m.cursorX < numSteps - 1 then { m with cursorX := m.cursorX + 1 } else m
  | SeqOp.moveUp => if 0 < m.cursorY then { m with cursorY := m.cursorY - 1 } else m
  | SeqOp.moveDown =>
    if m.cursorY < numChannels - 1 then { m with cursorY := m.cursorY + 1 } else m
  | SeqOp.toggle =>
    { m with steps := fun c s =>
        if c = m.cursorY ∧ s = m.cursorX then !(m.steps c s) else m.steps c s }
  | SeqOp.tempoUp => if m.bpm < 300 then { m with bpm := m.bpm + 5 } else m
  | SeqOp.tempoDown => if 20 < m.bpm then { m with bpm := m.bpm - 5 } else m
  | SeqOp.noteUp =>
    if m.notes m.cursorY m.cursorX < 127 then
      { m with notes := fun c s =>
          if c = m.cursorY ∧ s = m.cursorX then m.notes c s + 1 else m.notes c s }
    else m
  | SeqOp.noteDown =>
    if 0 < m.notes m.cursorY m.cursorX then
      { m with notes := fun c s =>
          if c = m.cursorY ∧ s = m.cursorX then m.notes c s - 1 else m.notes c s }
    else m
  | SeqOp.playToggle =>
    if m.isPlaying then { m with isPlaying := false }
    else { m with isPlaying := true, currentStep := 0 }
  | SeqOp.clearChannel =>
    { m with steps := fun c s => if c = m.cursorY then false else m.steps c s }
  | SeqOp.create => resetModel m
  | SeqOp.load f => (loadMIDI m f).1

/-- A sequence of commands applied in order. -/
def applyOps (m : SeqModel) (ops : List SeqOp) : SeqModel :=
  ops.foldl applyOp m

/-- The session state right after `createNewMIDI` — the state every editing
session starts from. -/
def initialModel : SeqModel :=
  resetModel
    { bpm := 0, steps := fun _ _ => false, notes := fun _ _ => 0,
      cursorX := 0, cursorY := 0, isPlaying := false, currentStep := 0 }

/-! ## Specification-side helpers used to state the theorems -/

/-- The grid cells a channel's decode pass writes: for each listed step, if
the encoded grid had it active, record its (reduced) note in channel `ch`. -/
def markCells (ch : ℕ) (steps : ℕ → ℕ → Bool) (notes : ℕ → ℕ → ℕ) :
    List ℕ → SeqModel → SeqModel
  | [], m => m
  | st :: rest, m =>
    if steps ch st then
      markCells ch steps notes rest (setCell m ch st (notes ch st % 256))
    else
      markCells ch steps notes rest m

/-- The cumulative tick position of each event of a track, starting from
tick `t`. -/
def cumTicks : Track → ℕ → List ℕ
  | [], _ => []
  | (d, _) :: rest, t => (t + d) :: cumTicks rest (t + d)

/-- The cumulative tick position of the last event of a track (`t` if the
track is empty), starting from tick `t`. -/
def lastCum : Track → ℕ → ℕ
  | [], t => t
  | (d, _) :: rest, t => lastCum rest (t + d)

/-- A tempo value the sequencer itself can produce: within [20, 300] and a
multiple of 5 (every saved file carries such a tempo, since the tempo keys
move in steps of 5 from 120). -/
def bpmOk (b : ℕ) : Prop := 20 ≤ b ∧ b ≤ 300 ∧ b % 5 = 0

/-- Restriction on a command: any loaded file's first tempo event (if it has
one) carries a tempo the sequencer can produce. -/
def loadOk : SeqOp → Prop
  | SeqOp.load (some f) => ∀ b, firstTempo f = some b → bpmOk b
  | _ => True

/-! ## Concrete states used by witnesses and counterexamples -/

/-- A pool with two active, non-releasing voices both holding channel 0,
note 60 (obtainable by two NoteOn(0, 60, 100) calls on distinct slots). -/
def stackedSynth : Synth :=
  { voices := [resetVoice 0 60 100, resetVoice 0 60 100],
    maxVoices := 64, masterVolume := 0 }

/-- A pool with a single voice matching channel 0, note 60. -/
def singleMatchSynth : Synth :=
  { voices := [resetVoice 0 60 100], maxVoices := 64, masterVolume := 0 }

/-- A pool at capacity with every slot active. -/
def fullSynth : Synth :=
  { voices := List.replicate 64 (resetVoice 0 60 100),
    maxVoices := 64, masterVolume := 0 }

/-- The spec's round-trip example: channel 0 active at steps 0/4/8/12 with
notes 60/64/67/72, channel 1 active at steps 2/6/10/14 with notes
62/65/69/74, bpm 120. -/
def exampleGrid : SeqModel :=
  { initialModel with
    steps := fun c s =>
      (c == 0 && (s == 0 || s == 4 || s == 8 || s == 12))
        || (c == 1 && (s == 2 || s == 6 || s == 10 || s == 14)),
    notes := fun c s =>
      if c = 0 ∧ s = 0 then 60
      else if c = 0 ∧ s = 4 then 64
      else if c = 0 ∧ s = 8 then 67
      else if c = 0 ∧ s = 12 then 72
      else if c = 1 ∧ s = 2 then 62
      else if c = 1 ∧ s = 6 then 65
      else if c = 1 ∧ s = 10 then 69
      else if c = 1 ∧ s = 14 then 74
      else defaultNotes c }

/-- A grid with every step inactive but a non-default note (61) stored in
cell (channel 0, step 0). -/
def note61Model : SeqModel :=
  { initialModel with
    notes := fun c s => if c = 0 ∧ s = 0 then 61 else defaultNotes c }

/-- A playing state at the default tempo 120 with channel 0 active at steps
0 and 1, play-head at step 0. -/
def playingModel : SeqModel :=
  { initialModel with
    isPlaying := true,
    steps := fun c s => c == 0 && (s == 0 || s == 1) }

/-- A file whose only track carries a tempo event of 500 BPM. -/
def badTempoFile : SMFFile := [[(0, Msg.tempo 500)]]

/-- A file whose single channel track (track index 1) holds a NoteOn whose
own channel byte says 7. -/
def mismatchedChannelFile : SMFFile := [[], [(0, Msg.noteOn 7 72 100)]]

/-- Rewrite the channel byte of every NoteOn message of a file by `f`,
leaving everything else unchanged. -/
def mapNoteOnChannel (f : ℕ → ℕ) : Msg → Msg
  | Msg.noteOn ch note vel => Msg.noteOn (f ch) note vel
  | msg => msg

/-- `mapNoteOnChannel` applied across a whole file. -/
def mapFileChannels (f : ℕ → ℕ) (file : SMFFile) : SMFFile :=
  file.map (fun tr => tr.map (fun ev => (ev.1, mapNoteOnChannel f ev.2)))

/-! ## Voice pool lemmas -/

theorem noteMatches_release (channel note : ℕ) (v : Voice) :
    noteMatches channel note { v with releasing := true } = false := by
  simp [noteMatches]

theorem releaseFirst_of_countP_zero (channel note : ℕ) (l : List Voice)
    (h : l.countP (noteMatches channel note) = 0) :
    releaseFirst channel note l = l := by
  induction l with
  | nil => rfl
  | cons v vs ih =>
    rw [List.countP_eq_zero] at h
    have hv : noteMatches channel note v = false := by simpa using h v (by simp)
    have hvs : vs.countP (noteMatches channel note) = 0 := by
      rw [List.countP_eq_zero]
      exact fun u hu => h u (by simp [hu])
    simp [releaseFirst, hv, ih hvs]

theorem countP_releaseFirst (channel note : ℕ) (l : List Voice)
    (h : 0 < l.countP (noteMatches channel note)) :
    (releaseFirst channel note l).countP (noteMatches channel note)
      = l.countP (noteMatches channel note) - 1 := by
  induction l with
  | nil => simp [List.countP_nil] at h
  | cons v vs ih =>
    cases hv : noteMatches channel note v with
    | false =>
      have hvs : 0 < vs.countP (noteMatches channel note) := by
        rw [List.countP_cons] at h
        simpa [hv] using h
      simp only [releaseFirst, hv, if_neg Bool.false_ne_true, List.countP_cons,
        ih hvs, hv]
      omega
    | true =>
      have hrel : noteMatches channel note { v with releasing := true } = false := by
        simp [noteMatches]
      simp [releaseFirst, hv, List.countP_cons, hrel]

theorem releaseFirst_idem (channel note : ℕ) (l : List Voice)
    (h : l.countP (noteMatches channel note) ≤ 1) :
    releaseFirst channel note (releaseFirst channel note l)
      = releaseFirst channel note l := by
  rcases Nat.eq_zero_or_pos (l.countP (noteMatches channel note)) with h0 | hpos
  · rw [releaseFirst_of_countP_zero channel note l h0,
      releaseFirst_of_countP_zero channel note l h0]
  · have hc := countP_releaseFirst channel note l hpos
    have hz : (releaseFirst channel note l).countP (noteMatches channel note) = 0 := by
      omega
    exact releaseFirst_of_countP_zero channel note _ hz

theorem setFirstInactive_eq_set (w : Voice) (l : List Voice) (i : ℕ)
    (hi : i < l.length) (hinact : (l.get ⟨i, hi⟩).active = false)
    (hbefore : ∀ j (hj : j < l.length), j < i → (l.get ⟨j, hj⟩).active = true) :
    setFirstInactive w l = some (l.set i w) := by
  induction l generalizing i with
  | nil => simp at hi
  | cons v vs ih =>
    cases hv : v.active with
    | false =>
      cases i with
      | zero =>
        simp [setFirstInactive, hv]
      | succ j =>
        have h0 : v.active = true := by
          simpa using hbefore 0 (by simp) (Nat.succ_pos j)
        rw [h0] at hv
        cases hv
    | true =>
      cases i with
      | zero =>
        have : v.active = false := by simpa using hinact
        rw [hv] at this
        cases this
      | succ j =>
        have hj : j < vs.length := by simpa [Nat.succ_lt_succ_iff] using hi
        have hbefore' : ∀ k (hk : k < vs.length), k < j →
            (vs.get ⟨k, hk⟩).active = true := by
          intro k hk hkj
          simpa using hbefore (k + 1) (by simpa [Nat.succ_lt_succ_iff] using hk)
            (Nat.succ_lt_succ hkj)
        have hrec := ih j hj (by simpa using hinact) hbefore'
        simp [setFirstInactive, hv, hrec]

theorem setFirstInactive_eq_none (w : Voice) (l : List Voice)
    (h : ∀ v ∈ l, v.active = true) :
    setFirstInactive w l = none := by
  induction l with
  | nil => rfl
  | cons v vs ih =>
    have hv := h v (by simp)
    have hvs : setFirstInactive w vs = none :=
      ih (fun u hu => h u (by simp [hu]))
    simp [setFirstInactive, hv, hvs]

/-! ## Claim theorems: the voice pool -/

/-- C3: NoteOn with positive velocity reuses the first inactive slot when
one exists, otherwise appends a new slot while below capacity, otherwise
steals slot 0 unconditionally; the chosen slot is reinitialized with
frequency `440 * 2 ^ ((note - 69) / 12)`, phase 0, envelope 0, not
releasing, active. -/
theorem c3_noteOn_allocation (s : Synth) (channel note velocity : ℕ)
    (hvel : 0 < velocity) :
    newSynth.maxVoices = 64
    ∧ (resetVoice channel note velocity
        = { note := note, channel := channel, velocity := velocity,
            frequency := ⟨440, (note : ℤ) - 69⟩, phase := 0, envelope := 0,
            releasing := false, active := true })
    ∧ (∀ i (hi : i < s.voices.length),
        (s.voices.get ⟨i, hi⟩).active = false →
        (∀ j (hj : j < s.voices.length), j < i →
          (s.voices.get ⟨j, hj⟩).active = true) →
        (s.noteOn channel note velocity).voices
          = s.voices.set i (resetVoice channel note velocity))
    ∧ ((∀ v ∈ s.voices, v.active = true) → s.voices.length < s.maxVoices →
        (s.noteOn channel note velocity).voices
          = s.voices ++ [resetVoice channel note velocity])
    ∧ ((∀ v ∈ s.voices, v.active = true) → s.maxVoices ≤ s.voices.length →
        (s.noteOn channel note velocity).voices
          = s.voices.set 0 (resetVoice channel note velocity)) := by
  have hv0 : ¬ velocity = 0 := by omega
  refine ⟨rfl, rfl, ?_, ?_, ?_⟩
  · intro i hi hinact hbefore
    rw [Synth.noteOn, if_neg hv0,
      setFirstInactive_eq_set (resetVoice channel note velocity) s.voices i hi
        hinact hbefore]
  · intro hall hlt
    rw [Synth.noteOn, if_neg hv0,
      setFirstInactive_eq_none (resetVoice channel note velocity) s.voices hall]
    simp [hlt]
  · intro hall hge
    rw [Synth.noteOn, if_neg hv0,
      setFirstInactive_eq_none (resetVoice channel note velocity) s.voices hall]
    simp [Nat.not_lt.mpr hge]

/-- C3 witness: a pool at capacity with all 64 voices active steals slot 0. -/
theorem c3_witness :
    (fullSynth.noteOn 1 69 100).voices
      = fullSynth.voices.set 0 (resetVoice 1 69 100) :=
  (c3_noteOn_allocation fullSynth 1 69 100 (by decide)).2.2.2.2 (by decide)
    (by decide)

/-- C4: NoteOn with velocity 0 leaves the synth in exactly the state NoteOff
produces — both run `noteOffLocked` on the same arguments. -/
theorem c4_velocity_zero_equiv (s : Synth) (channel note : ℕ) :
    s.noteOn channel note 0 = s.noteOff channel note := by
  rw [Synth.noteOn, Synth.noteOff, if_pos rfl]

/-- C5 (amended): NoteOff is idempotent on every synth state in which at
most one voice is active, non-releasing and matches (channel, note) — in
particular whenever a note was started once.  (With two stacked matching
voices the second call releases the second one; see the counterexample.) -/
theorem c5_noteOff_idempotent (s : Synth) (channel note : ℕ)
    (h : s.voices.countP (noteMatches channel note) ≤ 1) :
    (s.noteOff channel note).noteOff channel note = s.noteOff channel note := by
  show Synth.mk (releaseFirst channel note (releaseFirst channel note s.voices))
      s.maxVoices s.masterVolume
    = Synth.mk (releaseFirst channel note s.voices) s.maxVoices s.masterVolume
  rw [releaseFirst_idem channel note s.voices h]

/-- C5 witness: with a single matching voice the second NoteOff changes
nothing. -/
theorem c5_witness :
    (singleMatchSynth.noteOff 0 60).noteOff 0 60
      = singleMatchSynth.noteOff 0 60 :=
  c5_noteOff_idempotent singleMatchSynth 0 60 (by decide)

/-- C5 counterexample: on a pool holding two active, non-releasing voices
for (channel 0, note 60) — reachable by two NoteOn(0,60,100) calls — the
second NoteOff flips the second voice as well, so the state changes. -/
theorem c5_counterexample :
    (stackedSynth.noteOff 0 60).noteOff 0 60 ≠ stackedSynth.noteOff 0 60 := by
  decide

/-! ## Claim theorems: the step clock -/

/-- C6: the tick interval scheduled by `tickWithBPM` is `60000 / bpm / 4`
milliseconds (Go integer division) for every bpm in [20, 300]; in
particular 125 ms at bpm 120 and 50 ms at bpm 300. -/
theorem c6_tick_interval (bpm : ℕ) (h1 : 20 ≤ bpm) (h2 : bpm ≤ 300) :
    tickWithBPM bpm = Cmd.schedule (60000 / bpm / 4)
      ∧ tickWithBPM 120 = Cmd.schedule 125
      ∧ tickWithBPM 300 = Cmd.schedule 50 :=
  ⟨rfl, by decide, by decide⟩

/-- C6 witness at bpm 120. -/
theorem c6_witness : tickWithBPM 120 = Cmd.schedule (60000 / 120 / 4) :=
  (c6_tick_interval 120 (by decide) (by decide)).1

/-- C2, evaluated at the failing input: on a playing state at bpm 120 with
channel 0 active at steps 0 and 1, one tick does emit NoteOff(0, 60),
advance the play-head from 0 to 1 and emit NoteOn(0, 60, 100) — but it
reschedules the next tick via `tick()` at a fixed 60 ms, not with the
BPM-derived interval (125 ms at bpm 120) the claim describes;
`tickWithBPM` is only used for the first tick when playback starts. -/
theorem c2_tick_reschedule_bug :
    (processTick playingModel).1.currentStep = 1
      ∧ (processTick playingModel).2.1
          = [MidiEvent.noteOff 0 60, MidiEvent.noteOn 0 60 100]
      ∧ (processTick playingModel).2.2 = Cmd.schedule 60
      ∧ playingModel.bpm = 120
      ∧ tickWithBPM 120 = Cmd.schedule 125
      ∧ (processTick playingModel).2.2 ≠ tickWithBPM playingModel.bpm := by
  decide

/-! ## Tempo invariant lemmas -/

theorem setCell_bpm (m : SeqModel) (ch st note : ℕ) :
    (setCell m ch st note).bpm = m.bpm := rfl

theorem parseEvents_bpm (ch : ℕ) (tr : Track) :
    ∀ (t : ℕ) (m : SeqModel), (parseEvents ch tr t m).bpm = m.bpm := by
  induction tr with
  | nil => intro t m; rfl
  | cons ev rest ih =>
    intro t m
    obtain ⟨delta, msg⟩ := ev
    cases msg with
    | noteOn c k v =>
      by_cases hc : (t + delta) / ticksPerStep < numSteps ∧ 0 < v
      · simp [parseEvents, hc, ih, setCell_bpm]
      · simp [parseEvents, hc, ih]
    | meter a b => simp [parseEvents, ih]
    | tempo b => simp [parseEvents, ih]
    | noteOff c k => simp [parseEvents, ih]
    | endOfTrack => simp [parseEvents, ih]

theorem parseChannelTracks_bpm (trs : List Track) :
    ∀ (idx : ℕ) (m : SeqModel), (parseChannelTracks trs idx m).bpm = m.bpm := by
  induction trs with
  | nil => intro idx m; rfl
  | cons tr rest ih =>
    intro idx m
    by_cases hidx : idx ≤ numChannels
    · simp [parseChannelTracks, hidx, ih, parseEvents_bpm]
    · simp [parseChannelTracks, hidx]

theorem loadParsed_bpm (f : SMFFile) (m : SeqModel) :
    (loadParsed f m).bpm = (firstTempo f).getD 120 := by
  unfold loadParsed
  cases hf : firstTempo f with
  | none => simp [hf, parseChannelTracks_bpm, resetModel]
  | some b => simp [hf, parseChannelTracks_bpm]

theorem bpmOk_applyOp (m : SeqModel) (op : SeqOp) (hm : bpmOk m.bpm)
    (hop : loadOk op) : bpmOk (applyOp m op).bpm := by
  cases op with
  | moveLeft => simp only [applyOp]; split <;> simpa using hm
  | moveRight => simp only [applyOp]; split <;> simpa using hm
  | moveUp => simp only [applyOp]; split <;> simpa using hm
  | moveDown => simp only [applyOp]; split <;> simpa using hm
  | toggle => simpa [applyOp] using hm
  | clearChannel => simpa [applyOp] using hm
  | noteUp => simp only [applyOp]; split <;> simpa using hm
  | noteDown => simp only [applyOp]; split <;> simpa using hm
  | playToggle => simp only [applyOp]; split <;> simpa using hm
  | tempoUp =>
    by_cases hlt : m.bpm < 300
    · have hb : (applyOp m SeqOp.tempoUp).bpm = m.bpm + 5 := by
        simp [applyOp, hlt]
      rw [hb]
      obtain ⟨h1, h2, h3⟩ := hm
      exact ⟨by omega, by omega, by omega⟩
    · have hb : (applyOp m SeqOp.tempoUp).bpm = m.bpm := by
        simp [applyOp, hlt]
      rw [hb]; exact hm
  | tempoDown =>
    by_cases hlt : 20 < m.bpm
    · have hb : (applyOp m SeqOp.tempoDown).bpm = m.bpm - 5 := by
        simp [applyOp, hlt]
      rw [hb]
      obtain ⟨h1, h2, h3⟩ := hm
      exact ⟨by omega, by omega, by omega⟩
    · have hb : (applyOp m SeqOp.tempoDown).bpm = m.bpm := by
        simp [applyOp, hlt]
      rw [hb]; exact hm
  | create => exact ⟨by simp [applyOp, resetModel], by simp [applyOp, resetModel],
      by simp [applyOp, resetModel]⟩
  | load f =>
    cases f with
    | none =>
      have : (applyOp m (SeqOp.load none)).bpm = 120 := by
        simp [applyOp, loadMIDI, resetModel]
      rw [this]; exact ⟨by omega, by omega, by omega⟩
    | some file =>
      have hb : (applyOp m (SeqOp.load (some file))).bpm
          = (firstTempo file).getD 120 := by
        simp [applyOp, loadMIDI, loadParsed_bpm]
      rw [hb]
      cases hf : firstTempo file with
      | none => exact ⟨by simp, by simp, by simp⟩
      | some b =>
        have := hop b hf
        simpa using this

theorem bpmOk_applyOps (ops : List SeqOp) :
    ∀ (m : SeqModel), bpmOk m.bpm → (∀ op ∈ ops, loadOk op) →
      bpmOk (applyOps m ops).bpm := by
  induction ops with
  | nil => intro m hm _; exact hm
  | cons op rest ih =>
    intro m hm hops
    exact ih (applyOp m op) (bpmOk_applyOp m op hm (hops op (by simp)))
      (fun o ho => hops o (by simp [ho]))

/-- C7 (amended): in every state reachable from the initial session by
cursor moves, step toggles, note edits, play toggles, channel clears, tempo
commands, file creation, and loads of files whose tempo (if any) is one the
sequencer itself can produce (a multiple of 5 in [20, 300]; absent or
unreadable files default to 120), the tempo satisfies 20 ≤ bpm ≤ 300; and
on every state each tempo command changes bpm by exactly +5 / −5 or leaves
it unchanged.  (Loading an arbitrary file breaks the invariant — see the
counterexample — and a loaded tempo that is in range but not a multiple of
5, e.g. 299, would also escape the range after one '+' command.) -/
theorem c7_tempo_invariant (ops : List SeqOp)
    (hops : ∀ op ∈ ops, loadOk op) :
    (20 ≤ (applyOps initialModel ops).bpm
        ∧ (applyOps initialModel ops).bpm ≤ 300)
      ∧ (∀ m : SeqModel,
          ((applyOp m SeqOp.tempoUp).bpm = m.bpm + 5
              ∨ (applyOp m SeqOp.tempoUp).bpm = m.bpm)
            ∧ ((applyOp m SeqOp.tempoDown).bpm + 5 = m.bpm
              ∨ (applyOp m SeqOp.tempoDown).bpm = m.bpm)) := by
  constructor
  · have h := bpmOk_applyOps ops initialModel (by refine ⟨?_, ?_, ?_⟩ <;> decide)
      hops
    exact ⟨h.1, h.2.1⟩
  · intro m
    constructor
    · by_cases h : m.bpm < 300
      · left; simp [applyOp, h]
      · right; simp [applyOp, h]
    · by_cases h : 20 < m.bpm
      · left
        have : (applyOp m SeqOp.tempoDown).bpm = m.bpm - 5 := by
          simp [applyOp, h]
        rw [this]; omega
      · right; simp [applyOp, h]

/-- C7 witness: one tempo increment from the initial state stays in
range. -/
theorem c7_witness :
    20 ≤ (applyOps initialModel [SeqOp.tempoUp]).bpm
      ∧ (applyOps initialModel [SeqOp.tempoUp]).bpm ≤ 300 :=
  (c7_tempo_invariant [SeqOp.tempoUp]
    (by intro op hop; rw [List.mem_singleton] at hop; subst hop; trivial)).1

/-- C7 counterexample: loading a file whose tempo event carries 500 BPM
puts the session at bpm = 500, outside [20, 300] — `loadMIDI` stores the
extracted tempo without clamping. -/
theorem c7_counterexample :
    ¬ (applyOps initialModel [SeqOp.load (some badTempoFile)]).bpm ≤ 300 := by
  decide

/-! ## Codec lemmas -/

theorem ticksPerStep_eq : ticksPerStep = 240 := rfl

theorem numSteps_eq : numSteps = 16 := rfl

theorem numChannels_eq : numChannels = 4 := rfl

@[simp] theorem setCell_steps_apply (m : SeqModel) (ch st note c s : ℕ) :
    (setCell m ch st note).steps c s
      = if c = ch ∧ s = st then true else m.steps c s := rfl

@[simp] theorem setCell_notes_apply (m : SeqModel) (ch st note c s : ℕ) :
    (setCell m ch st note).notes c s
      = if c = ch ∧ s = st then note else m.notes c s := rfl

theorem parseEvents_stepEvents (ch : ℕ) (steps : ℕ → ℕ → Bool)
    (notes : ℕ → ℕ → ℕ) :
    ∀ (L : List ℕ) (lastTick : ℕ) (tail : Track) (m : SeqModel),
      L.Pairwise (· < ·) →
      (∀ st ∈ L, lastTick ≤ st * ticksPerStep) →
      (∀ st ∈ L, st < numSteps) →
      parseEvents ch ((stepEvents ch steps notes L lastTick).1 ++ tail)
          lastTick m
        = parseEvents ch tail (stepEvents ch steps notes L lastTick).2
            (markCells ch steps notes L m) := by
  intro L
  induction L with
  | nil => intro lastTick tail m _ _ _; rfl
  | cons st rest ih =>
    intro lastTick tail m hpw hle hlt
    rw [List.pairwise_cons] at hpw
    obtain ⟨hstlt, hpw'⟩ := hpw
    have hpos : lastTick ≤ st * ticksPerStep := hle st (by simp)
    have hst16 : st < numSteps := hlt st (by simp)
    cases hact : steps ch st with
    | false =>
      have hle' : ∀ s' ∈ rest, lastTick ≤ s' * ticksPerStep :=
        fun s' hs' => hle s' (by simp [hs'])
      have hlt' : ∀ s' ∈ rest, s' < numSteps :=
        fun s' hs' => hlt s' (by simp [hs'])
      simp only [stepEvents, hact, Bool.false_eq_true, if_false, markCells]
      exact ih lastTick tail m hpw' hle' hlt'
    | true =>
      have hle' : ∀ s' ∈ rest,
          st * ticksPerStep + (ticksPerStep - 1) ≤ s' * ticksPerStep := by
        intro s' hs'
        have h1 : st + 1 ≤ s' := hstlt s' hs'
        have h2 : (st + 1) * ticksPerStep ≤ s' * ticksPerStep :=
          Nat.mul_le_mul_right ticksPerStep h1
        rw [ticksPerStep_eq] at h2 ⊢
        omega
      have hlt' : ∀ s' ∈ rest, s' < numSteps :=
        fun s' hs' => hlt s' (by simp [hs'])
      have ht1 : lastTick + (st * ticksPerStep - lastTick) = st * ticksPerStep :=
        Nat.add_sub_cancel' hpos
      have hdiv : st * ticksPerStep / ticksPerStep = st := by
        rw [ticksPerStep_eq]; omega
      have hbody := ih (st * ticksPerStep + (ticksPerStep - 1)) tail
        (setCell m ch st (notes ch st % 256)) hpw' hle' hlt'
      simp only [stepEvents, hact, if_true, markCells, List.cons_append]
      rw [parseEvents, ht1, hdiv, if_pos ⟨hst16, by norm_num⟩]
      rw [parseEvents]
      · exact hbody
      · intro channel key vel h
        exact Msg.noConfusion h

theorem parseEvents_endOfTrack (ch : ℕ) (d t : ℕ) (m : SeqModel) :
    parseEvents ch [(d, Msg.endOfTrack)] t m = m := rfl

theorem parseEvents_channelTrack (ch : ℕ) (steps : ℕ → ℕ → Bool)
    (notes : ℕ → ℕ → ℕ) (m : SeqModel) :
    parseEvents ch (channelTrack ch steps notes) 0 m
      = markCells ch steps notes (List.range numSteps) m := by
  unfold channelTrack channelBody channelLastTick
  rw [parseEvents_stepEvents ch steps notes (List.range numSteps) 0
      [(closeDelta (stepEvents ch steps notes (List.range numSteps) 0).2,
        Msg.endOfTrack)] m
      (List.pairwise_lt_range numSteps)
      (fun st _ => Nat.zero_le (st * ticksPerStep))
      (fun st hst => List.mem_range.mp hst)]
  exact parseEvents_endOfTrack ch _ _ _

theorem markCells_steps_apply (ch : ℕ) (steps : ℕ → ℕ → Bool)
    (notes : ℕ → ℕ → ℕ) :
    ∀ (L : List ℕ) (m : SeqModel) (c s : ℕ),
      (markCells ch steps notes L m).steps c s
        = if c = ch ∧ s ∈ L ∧ steps ch s = true then true else m.steps c s := by
  intro L
  induction L with
  | nil => intro m c s; simp [markCells]
  | cons st rest ih =>
    intro m c s
    cases hact : steps ch st with
    | false =>
      rw [markCells, if_neg (by simp [hact]), ih]
      by_cases hc : c = ch
      · subst hc
        by_cases hs : s = st
        · subst hs
          simp [hact]
        · simp [List.mem_cons, hs]
      · simp [hc]
    | true =>
      rw [markCells, if_pos (by simp [hact]), ih]
      by_cases hc : c = ch
      · subst hc
        by_cases hs : s = st
        · subst hs
          simp [hact]
        · simp [List.mem_cons, hs]
      · simp [hc]

theorem markCells_notes_apply (ch : ℕ) (steps : ℕ → ℕ → Bool)
    (notes : ℕ → ℕ → ℕ) :
    ∀ (L : List ℕ) (m : SeqModel) (c s : ℕ),
      (markCells ch steps notes L m).notes c s
        = if c = ch ∧ s ∈ L ∧ steps ch s = true then notes ch s % 256
          else m.notes c s := by
  intro L
  induction L with
  | nil => intro m c s; simp [markCells]
  | cons st rest ih =>
    intro m c s
    cases hact : steps ch st with
    | false =>
      rw [markCells, if_neg (by simp [hact]), ih]
      by_cases hc : c = ch
      · subst hc
        by_cases hs : s = st
        · subst hs
          simp [hact]
        · simp [List.mem_cons, hs]
      · simp [hc]
    | true =>
      rw [markCells, if_pos (by simp [hact]), ih]
      by_cases hc : c = ch
      · subst hc
        by_cases hs : s = st
        · subst hs
          simp [hact]
        · simp [List.mem_cons, hs]
      · simp [hc]

theorem markCells_bpm (ch : ℕ) (steps : ℕ → ℕ → Bool) (notes : ℕ → ℕ → ℕ) :
    ∀ (L : List ℕ) (m : SeqModel), (markCells ch steps notes L m).bpm = m.bpm := by
  intro L
  induction L with
  | nil => intro m; rfl
  | cons st rest ih =>
    intro m
    cases hact : steps ch st with
    | false => rw [markCells, if_neg (by simp [hact]), ih]
    | true => rw [markCells, if_pos (by simp [hact]), ih]; rfl

theorem firstTempo_saveMIDI (m : SeqModel) :
    firstTempo (saveMIDI m) = some m.bpm := rfl

theorem loadParsed_saveMIDI (m base : SeqModel) :
    loadParsed (saveMIDI m) base
      = markCells 3 m.steps m.notes (List.range numSteps)
          (markCells 2 m.steps m.notes (List.range numSteps)
            (markCells 1 m.steps m.notes (List.range numSteps)
              (markCells 0 m.steps m.notes (List.range numSteps)
                { resetModel base with bpm := m.bpm }))) := by
  show parseChannelTracks ((saveMIDI m).drop 1) 1
      { resetModel base with bpm := m.bpm } = _
  have hdrop : (saveMIDI m).drop 1
      = [channelTrack 0 m.steps m.notes, channelTrack 1 m.steps m.notes,
         channelTrack 2 m.steps m.notes, channelTrack 3 m.steps m.notes] := rfl
  rw [hdrop]
  rw [parseChannelTracks, if_pos (by decide)]
  rw [parseChannelTracks, if_pos (by decide)]
  rw [parseChannelTracks, if_pos (by decide)]
  rw [parseChannelTracks, if_pos (by decide)]
  rw [parseChannelTracks]
  rw [show (1 : ℕ) - 1 = 0 from rfl, show (2 : ℕ) - 1 = 1 from rfl,
    show (3 : ℕ) - 1 = 2 from rfl, show (4 : ℕ) - 1 = 3 from rfl]
  rw [parseEvents_channelTrack, parseEvents_channelTrack,
    parseEvents_channelTrack, parseEvents_channelTrack]

/-! ## Claim theorems: the codec -/

/-- C1 (amended): decoding an encoded file reproduces the bpm, every cell's
active flag, and the note of every active cell; the note of an inactive
cell comes back as its channel's default (60/62/64/65), because `saveMIDI`
emits events only for active steps.  (The claim as frozen — all 64
(active, note) pairs for any grid — fails on inactive cells holding a
non-default note; see the counterexample.) -/
theorem c1_roundtrip (m base : SeqModel)
    (hnotes : ∀ ch, ch < numChannels → ∀ st, st < numSteps →
      m.notes ch st ≤ 127)
    (hbpm : 20 ≤ m.bpm ∧ m.bpm ≤ 300) :
    (loadMIDI base (some (saveMIDI m))).1.bpm = m.bpm
      ∧ (∀ ch, ch < numChannels → ∀ st, st < numSteps →
          (loadMIDI base (some (saveMIDI m))).1.steps ch st = m.steps ch st)
      ∧ (∀ ch, ch < numChannels → ∀ st, st < numSteps →
          m.steps ch st = true →
          (loadMIDI base (some (saveMIDI m))).1.notes ch st = m.notes ch st)
      ∧ (∀ ch, ch < numChannels → ∀ st, st < numSteps →
          m.steps ch st = false →
          (loadMIDI base (some (saveMIDI m))).1.notes ch st
            = defaultNotes ch) := by
  have hload : (loadMIDI base (some (saveMIDI m))).1
      = loadParsed (saveMIDI m) base := rfl
  rw [hload, loadParsed_saveMIDI]
  refine ⟨?_, ?_, ?_, ?_⟩
  · simp [markCells_bpm]
  · intro ch hch st hst
    rw [markCells_steps_apply, markCells_steps_apply, markCells_steps_apply,
      markCells_steps_apply]
    have hch4 : ch = 0 ∨ ch = 1 ∨ ch = 2 ∨ ch = 3 := by
      rw [numChannels_eq] at hch; omega
    have hmem : st ∈ List.range numSteps := List.mem_range.mpr hst
    rcases hch4 with rfl | rfl | rfl | rfl
    · cases hms : m.steps 0 st <;> simp [hms, hmem, resetModel]
    · cases hms : m.steps 1 st <;> simp [hms, hmem, resetModel]
    · cases hms : m.steps 2 st <;> simp [hms, hmem, resetModel]
    · cases hms : m.steps 3 st <;> simp [hms, hmem, resetModel]
  · intro ch hch st hst hact
    rw [markCells_notes_apply, markCells_notes_apply, markCells_notes_apply,
      markCells_notes_apply]
    have hch4 : ch = 0 ∨ ch = 1 ∨ ch = 2 ∨ ch = 3 := by
      rw [numChannels_eq] at hch; omega
    have hmem : st ∈ List.range numSteps := List.mem_range.mpr hst
    have hmod : m.notes ch st % 256 = m.notes ch st :=
      Nat.mod_eq_of_lt (lt_of_le_of_lt (hnotes ch hch st hst) (by norm_num))
    rcases hch4 with rfl | rfl | rfl | rfl <;>
      simp [hact, hmem, hmod]
  · intro ch hch st hst hact
    rw [markCells_notes_apply, markCells_notes_apply, markCells_notes_apply,
      markCells_notes_apply]
    have hch4 : ch = 0 ∨ ch = 1 ∨ ch = 2 ∨ ch = 3 := by
      rw [numChannels_eq] at hch; omega
    rcases hch4 with rfl | rfl | rfl | rfl <;>
      simp [hact, resetModel]

/-- C1 witness: the spec's round-trip example grid at bpm 120 reproduces
its bpm, an active flag and an active cell's note. -/
theorem c1_witness :
    (loadMIDI initialModel (some (saveMIDI exampleGrid))).1.bpm
        = exampleGrid.bpm
      ∧ (loadMIDI initialModel (some (saveMIDI exampleGrid))).1.steps 0 4
          = exampleGrid.steps 0 4
      ∧ (loadMIDI initialModel (some (saveMIDI exampleGrid))).1.notes 1 14
          = exampleGrid.notes 1 14 :=
  ⟨(c1_roundtrip exampleGrid initialModel (by decide) (by decide)).1,
   (c1_roundtrip exampleGrid initialModel (by decide) (by decide)).2.1 0
     (by decide) 4 (by decide),
   (c1_roundtrip exampleGrid initialModel (by decide) (by decide)).2.2.1 1
     (by decide) 14 (by decide) (by decide)⟩

/-- C1 counterexample: a grid whose cell (channel 0, step 0) is inactive
but holds the non-default note 61 decodes with note 60 there — the
(active, note) pair of that cell is not reproduced, refuting the claim for
arbitrary grids. -/
theorem c1_counterexample :
    ¬ ((loadMIDI initialModel (some (saveMIDI note61Model))).1.notes 0 0
        = note61Model.notes 0 0) := by
  decide

/-! ## Track monotonicity lemmas -/

theorem cumTicks_head_le (tr : Track) :
    ∀ (t b : ℕ), (cumTicks tr t).head? = some b → t ≤ b := by
  cases tr with
  | nil => intro t b h; exact absurd h (by simp [cumTicks])
  | cons ev rest =>
    intro t b h
    obtain ⟨d, msg⟩ := ev
    rw [cumTicks] at h
    simp at h
    omega

theorem cumTicks_chain (tr : Track) :
    ∀ (t : ℕ), List.Chain' (· ≤ ·) (cumTicks tr t) := by
  induction tr with
  | nil => intro t; simp [cumTicks]
  | cons ev rest ih =>
    intro t
    obtain ⟨d, msg⟩ := ev
    rw [cumTicks, List.chain'_cons']
    exact ⟨fun b hb => cumTicks_head_le rest (t + d) b hb, ih (t + d)⟩

theorem lastCum_stepEvents (ch : ℕ) (steps : ℕ → ℕ → Bool)
    (notes : ℕ → ℕ → ℕ) :
    ∀ (L : List ℕ) (lastTick : ℕ),
      L.Pairwise (· < ·) →
      (∀ st ∈ L, lastTick ≤ st * ticksPerStep) →
      lastCum (stepEvents ch steps notes L lastTick).1 lastTick
        = (stepEvents ch steps notes L lastTick).2 := by
  intro L
  induction L with
  | nil => intro lastTick _ _; rfl
  | cons st rest ih =>
    intro lastTick hpw hle
    rw [List.pairwise_cons] at hpw
    obtain ⟨hstlt, hpw'⟩ := hpw
    have hpos : lastTick ≤ st * ticksPerStep := hle st (by simp)
    cases hact : steps ch st with
    | false =>
      simp only [stepEvents, hact, Bool.false_eq_true, if_false]
      exact ih lastTick hpw' (fun s' hs' => hle s' (by simp [hs']))
    | true =>
      have hle' : ∀ s' ∈ rest,
          st * ticksPerStep + (ticksPerStep - 1) ≤ s' * ticksPerStep := by
        intro s' hs'
        have h2 : (st + 1) * ticksPerStep ≤ s' * ticksPerStep :=
          Nat.mul_le_mul_right ticksPerStep (hstlt s' hs')
        rw [ticksPerStep_eq] at h2 ⊢
        omega
      simp only [stepEvents, hact, if_true]
      rw [lastCum, lastCum, Nat.add_sub_cancel' hpos]
      exact ih (st * ticksPerStep + (ticksPerStep - 1)) hpw' hle'

/-- C8: in every encoder channel track the cumulative tick positions of
consecutive events never decrease; the track's final event is the close at
delta `numSteps * ticksPerStep - lastTick` clamped at zero (Nat truncated
subtraction is exactly that clamp of the code's guarded branch); and the
encoder's `lastTick` is the cumulative tick of the last note event of the
body (0 for an empty pattern). -/
theorem c8_track_monotone (m : SeqModel) (ch : ℕ) (hch : ch < numChannels) :
    List.Chain' (· ≤ ·) (cumTicks (channelTrack ch m.steps m.notes) 0)
      ∧ (channelTrack ch m.steps m.notes).getLast?
          = some (closeDelta (channelLastTick ch m.steps m.notes),
              Msg.endOfTrack)
      ∧ closeDelta (channelLastTick ch m.steps m.notes)
          = numSteps * ticksPerStep - channelLastTick ch m.steps m.notes
      ∧ channelLastTick ch m.steps m.notes
          = lastCum (channelBody ch m.steps m.notes) 0 := by
  refine ⟨cumTicks_chain _ 0, ?_, ?_, ?_⟩
  · unfold channelTrack
    simp [List.getLast?_concat]
  · unfold closeDelta
    by_cases h : channelLastTick ch m.steps m.notes < numSteps * ticksPerStep
    · rw [if_pos h]
    · rw [if_neg h]
      exact (Nat.sub_eq_zero_of_le (Nat.not_lt.mp h)).symm
  · unfold channelBody channelLastTick
    exact (lastCum_stepEvents ch m.steps m.notes (List.range numSteps) 0
      (List.pairwise_lt_range numSteps)
      (fun st _ => Nat.zero_le _)).symm

/-- C8 witness at the example grid's channel 0 track. -/
theorem c8_witness :
    List.Chain' (· ≤ ·)
      (cumTicks (channelTrack 0 exampleGrid.steps exampleGrid.notes) 0) :=
  (c8_track_monotone exampleGrid 0 (by decide)).1

/-- C9: on an input `smf.ReadFile` cannot read (nonexistent or unparseable)
the load is not an error: the model comes back with bpm 120, every step
inactive, every channel at its default note 60/62/64/65, and the default is
immediately persisted by invoking the encoder on it. -/
theorem c9_default_on_unreadable (m : SeqModel) :
    (loadMIDI m none).1.bpm = 120
      ∧ (∀ ch st : ℕ, (loadMIDI m none).1.steps ch st = false)
      ∧ (∀ ch st : ℕ, ch < numChannels →
          (loadMIDI m none).1.notes ch st = defaultNotes ch)
      ∧ defaultNotes 0 = 60 ∧ defaultNotes 1 = 62 ∧ defaultNotes 2 = 64
      ∧ defaultNotes 3 = 65
      ∧ (loadMIDI m none).2 = some (saveMIDI (loadMIDI m none).1) :=
  ⟨rfl, fun _ _ => rfl, fun _ _ _ => rfl, rfl, rfl, rfl, rfl, rfl⟩

/-- C9 witness at the initial model. -/
theorem c9_witness :
    (loadMIDI initialModel none).1.bpm = 120
      ∧ (loadMIDI initialModel none).1.notes 1 0 = defaultNotes 1 :=
  ⟨(c9_default_on_unreadable initialModel).1,
   (c9_default_on_unreadable initialModel).2.2.1 1 0 (by decide)⟩

/-! ## Decode channel-byte irrelevance -/

theorem mapNoteOnChannel_eq_noteOn (f : ℕ → ℕ) (c k v : ℕ) :
    mapNoteOnChannel f (Msg.noteOn c k v) = Msg.noteOn (f c) k v := rfl

theorem mapNoteOnChannel_eq_meter (f : ℕ → ℕ) (a b : ℕ) :
    mapNoteOnChannel f (Msg.meter a b) = Msg.meter a b := rfl

theorem mapNoteOnChannel_eq_tempo (f : ℕ → ℕ) (b : ℕ) :
    mapNoteOnChannel f (Msg.tempo b) = Msg.tempo b := rfl

theorem mapNoteOnChannel_eq_noteOff (f : ℕ → ℕ) (c k : ℕ) :
    mapNoteOnChannel f (Msg.noteOff c k) = Msg.noteOff c k := rfl

theorem mapNoteOnChannel_eq_endOfTrack (f : ℕ → ℕ) :
    mapNoteOnChannel f Msg.endOfTrack = Msg.endOfTrack := rfl

theorem parseEvents_mapChannels (ch : ℕ) (f : ℕ → ℕ) (tr : Track) :
    ∀ (t : ℕ) (m : SeqModel),
      parseEvents ch (tr.map (fun ev => (ev.1, mapNoteOnChannel f ev.2))) t m
        = parseEvents ch tr t m := by
  induction tr with
  | nil => intro t m; rfl
  | cons ev rest ih =>
    intro t m
    obtain ⟨d, msg⟩ := ev
    cases msg with
    | noteOn c k v =>
      by_cases hc : (t + d) / ticksPerStep < numSteps ∧ 0 < v
      · simp only [List.map_cons, mapNoteOnChannel_eq_noteOn, parseEvents,
          if_pos hc, ih]
      · simp only [List.map_cons, mapNoteOnChannel_eq_noteOn, parseEvents,
          if_neg hc, ih]
    | meter a b =>
      simp only [List.map_cons, mapNoteOnChannel_eq_meter, parseEvents, ih]
    | tempo b =>
      simp only [List.map_cons, mapNoteOnChannel_eq_tempo, parseEvents, ih]
    | noteOff c k =>
      simp only [List.map_cons, mapNoteOnChannel_eq_noteOff, parseEvents, ih]
    | endOfTrack =>
      simp only [List.map_cons, mapNoteOnChannel_eq_endOfTrack, parseEvents, ih]

theorem parseChannelTracks_mapChannels (f : ℕ → ℕ) (trs : List Track) :
    ∀ (idx : ℕ) (m : SeqModel),
      parseChannelTracks
          (trs.map (fun tr =>
            tr.map (fun ev => (ev.1, mapNoteOnChannel f ev.2)))) idx m
        = parseChannelTracks trs idx m := by
  induction trs with
  | nil => intro idx m; rfl
  | cons tr rest ih =>
    intro idx m
    by_cases hidx : idx ≤ numChannels
    · simp [parseChannelTracks, hidx, ih, parseEvents_mapChannels]
    · simp [parseChannelTracks, hidx]

theorem tempoInTrack_mapChannels (f : ℕ → ℕ) (tr : Track) :
    tempoInTrack (tr.map (fun ev => (ev.1, mapNoteOnChannel f ev.2)))
      = tempoInTrack tr := by
  induction tr with
  | nil => rfl
  | cons ev rest ih =>
    obtain ⟨d, msg⟩ := ev
    cases msg with
    | noteOn c k v =>
      simp only [List.map_cons, mapNoteOnChannel_eq_noteOn, tempoInTrack, ih]
    | meter a b =>
      simp only [List.map_cons, mapNoteOnChannel_eq_meter, tempoInTrack, ih]
    | tempo b =>
      simp only [List.map_cons, mapNoteOnChannel_eq_tempo, tempoInTrack]
    | noteOff c k =>
      simp only [List.map_cons, mapNoteOnChannel_eq_noteOff, tempoInTrack, ih]
    | endOfTrack =>
      simp only [List.map_cons, mapNoteOnChannel_eq_endOfTrack, tempoInTrack, ih]

theorem firstTempo_mapChannels (f : ℕ → ℕ) (file : SMFFile) :
    firstTempo (mapFileChannels f file) = firstTempo file := by
  induction file with
  | nil => rfl
  | cons tr rest ih =>
    have hcons : mapFileChannels f (tr :: rest)
        = tr.map (fun ev => (ev.1, mapNoteOnChannel f ev.2))
            :: mapFileChannels f rest := rfl
    rw [hcons]
    cases h : tempoInTrack tr with
    | some b => simp [firstTempo, tempoInTrack_mapChannels, h]
    | none => simp [firstTempo, tempoInTrack_mapChannels, h, ih]

/-- C10: the decoder assigns notes to channels purely by track position —
rewriting the channel byte of every NoteOn message by an arbitrary function
leaves the whole decode result unchanged, and a file whose track at index 1
carries a NoteOn claiming channel 7 still populates channel 0 (that track's
position) with its note. -/
theorem c10_channel_by_track_position :
    (∀ (f : ℕ → ℕ) (file : SMFFile) (m : SeqModel),
        loadMIDI m (some (mapFileChannels f file)) = loadMIDI m (some file))
      ∧ (loadMIDI initialModel (some mismatchedChannelFile)).1.steps 0 0
          = true
      ∧ (loadMIDI initialModel (some mismatchedChannelFile)).1.notes 0 0
          = 72 := by
  refine ⟨?_, by decide, by decide⟩
  intro f file m
  have hload : loadParsed (mapFileChannels f file) m = loadParsed file m := by
    unfold loadParsed
    rw [firstTempo_mapChannels]
    have hdrop : (mapFileChannels f file).drop 1
        = (file.drop 1).map (fun tr =>
            tr.map (fun ev => (ev.1, mapNoteOnChannel f ev.2))) := by
      unfold mapFileChannels
      exact (List.map_drop _ file 1).symm
    rw [hdrop]
    exact parseChannelTracks_mapChannels f (file.drop 1) 1 _
  show (loadParsed (mapFileChannels f file) m, (none : Option SMFFile))
      = (loadParsed file m, (none : Option SMFFile))
  rw [hload]

end Genidi
